import Mathlib

/-!
Verification development for the speech-recognition pipeline repository
(`DataPipeline.py`, `FLAGS.py`, `LanguageModels.py`).

The Python code is shallowly embedded: feature matrices become `List (List ℚ)`
(a list of time frames, each a list of frequency-bin values), label sequences
become `List ℤ`, and the TensorFlow dataset transformations become executable
Lean functions on lists.  Machine floats never enter any property proved here:
the masking, bucketing, padding and dispatch logic of the source is purely
structural, so exact rationals model the feature values faithfully.

Randomness (`tf.random.uniform` draws, dataset shuffles) is modelled by
explicit oracle parameters or seed-determined permutations, as noted at each
definition.
-/

namespace SpeechPipeline

/-! ## Definitions

The data model and the operations of the source, in source order. -/

/-- Constants from `FLAGS.py` that the data pipeline reads. -/
def FLAGSnumFeatures : ℕ := 123

/-- FLAGS.min_time. -/
def FLAGSminTime : ℕ := 100

/-- FLAGS.max_time. -/
def FLAGSmaxTime : ℕ := 3000

/-- FLAGS.bucket_width. -/
def FLAGSbucketWidth : ℕ := 100

/-- FLAGS.batch_size_per_GPU. -/
def FLAGSbatchSizePerGPU : ℕ := 8

/-- FLAGS.feature_pad_val (0.0 in the source; an exact rational here). -/
def FLAGSfeaturePadVal : ℚ := 0

/-- FLAGS.label_pad_val. -/
def FLAGSlabelPadVal : ℤ := -1

/-- FLAGS.num_train_data = int(48812/2). -/
def FLAGSnumTrainData : ℕ := 24406

/-- FLAGS.num_test_data = int(4796/2). -/
def FLAGSnumTestData : ℕ := 2398

/-- FLAGS.shuffle_seed. -/
def FLAGSshuffleSeed : ℕ := 42

/-- FLAGS.buffer_size = int(0.1 * num_train_data / batch_size_per_GPU). -/
def FLAGSbufferSize : ℕ := 305

/-- One dataset element: feature matrix `x` (time frames × frequency bins),
label sequence `y`, and the two per-sample length scalars attached by
`_read_tfrecords`. -/
structure Sample where
  x : List (List ℚ)
  y : List ℤ
  sx : ℕ
  sy : ℕ
deriving DecidableEq, Repr

/-- State of a `SpecAug` instance: the masked axis and the bandwidth.
Python ints are modelled by `ℤ` for the axis and the bandwidth, since the
constructor accepts arbitrary ints. -/
structure SpecAug where
  axis : ℤ
  bandwidth : ℤ
deriving DecidableEq, Repr

/-- `SpecAug.__init__`: `self.axis = axis if axis in (0, 1) else 0`. -/
def specAugInit (axis : ℤ) (bandwidth : ℤ) : SpecAug :=
  { axis := if axis = 0 ∨ axis = 1 then axis else 0, bandwidth := bandwidth }

/-- Runtime failures `_mask_sample` can raise, keeping the `AttributeError`
branch distinguishable from TensorFlow shape/argument errors. -/
inductive MaskErr
  /-- `tf.zeros((bandwidth,))` with a negative bandwidth. -/
  | negBandwidth
  /-- `tf.random.uniform([], 0, maxval)` with `maxval ≤ 0`. -/
  | emptyRange
  /-- a draw outside the support of the uniform distribution (impossible for
  an actual draw; the draw is an explicit oracle argument here). -/
  | drawOutOfRange
  /-- the `raise AttributeError(...)` branch of `_mask_sample`. -/
  | attrError
  /-- `tf.ensure_shape` raising on a shape mismatch. -/
  | shapeError
deriving DecidableEq, Repr

/-- `tf.boolean_mask(x, mask)` on the first axis.  The TensorFlow
implementation gathers the rows at `where(mask)`, so rows of `x` beyond the
mask's length are dropped (no runtime length check for a shorter mask). -/
def booleanMask {α : Type} (x : List α) (m : List Bool) : List α :=
  ((x.zip m).filter (fun p => p.2)).map Prod.fst

/-- The contiguous mask `tf.concat((ones(a), zeros(b), ones(c)))` as a
boolean vector: `a` kept rows, `b` masked rows, `c` kept rows. -/
def maskVec (a b c : ℕ) : List Bool :=
  List.replicate a true ++ (List.replicate b false ++ List.replicate c true)

/-- The number of frequency bins of a feature matrix (the static second
shape component in TensorFlow). -/
def ncolsOf (x : List (List ℚ)) : ℕ := (x.headD []).length

/-- `tf.transpose(x, (1, 0))` of a matrix whose static column count is `n`:
row `j` of the result is column `j` of `x`. -/
def transposeM (x : List (List ℚ)) (n : ℕ) : List (List ℚ) :=
  (List.range n).map (fun j => x.map (fun r => r.getD j 0))

/-- `tf.ensure_shape(x, (None, cols))`: validates at runtime that the
tensor's second dimension equals `cols` (the first is unconstrained) and
returns the tensor unchanged, raising on a mismatch. -/
def ensureShape (cols : ℤ) (x : List (List ℚ)) : Except MaskErr (List (List ℚ)) :=
  if ∀ r ∈ x, (r.length : ℤ) = cols then .ok x else .error .shapeError

/-- `SpecAug._mask_sample(sample, sx_max)` for one sample.  `tmLb` is the
oracle for the `tf.random.uniform([], 0, nrows - bandwidth)` draw.
Errors model the TensorFlow runtime failures on negative shapes or an empty
uniform range; `attrError` models the explicit `raise AttributeError`. -/
def maskSampleAt (sa : SpecAug) (sxMax : ℕ) (tmLb : ℕ) (s : Sample) : Except MaskErr Sample :=
  if sa.axis = 0 then
    let nrows : ℤ := s.sx
    let nrowsMax : ℤ := sxMax
    let bw : ℤ := sa.bandwidth - nrowsMax + nrows
    if bw < 0 then .error .negBandwidth
    else if nrows - bw ≤ 0 then .error .emptyRange
    else if nrows - bw ≤ tmLb then .error .drawOutOfRange
    else
      let bwN : ℕ := bw.toNat
      let m := maskVec tmLb bwN (s.sx - (tmLb + bwN))
      (ensureShape (FLAGSnumFeatures : ℤ) (booleanMask s.x m)).map
        (fun x2 => { s with x := x2 })
  else if sa.axis = 1 then
    let xT := transposeM s.x (ncolsOf s.x)
    let nrows : ℤ := xT.length
    let bw : ℤ := sa.bandwidth - nrows + nrows
    if bw < 0 then .error .negBandwidth
    else if nrows - bw ≤ 0 then .error .emptyRange
    else if nrows - bw ≤ tmLb then .error .drawOutOfRange
    else
      let bwN : ℕ := bw.toNat
      let m := maskVec tmLb bwN (xT.length - (tmLb + bwN))
      (ensureShape ((FLAGSnumFeatures : ℤ) - sa.bandwidth)
          (transposeM (booleanMask xT m) s.x.length)).map
        (fun x2 => { s with x := x2 })
  else .error .attrError

/-- `mapE f` threads `tf.map_fn` over a list of samples indexed from `i`,
feeding each element its own oracle draw; any per-element failure aborts. -/
def mapIdxE {α β : Type} (f : ℕ → α → Except MaskErr β) : ℕ → List α → Except MaskErr (List β)
  | _, [] => .ok []
  | i, a :: as =>
    match f i a with
    | .error e => .error e
    | .ok b => (mapIdxE f (i + 1) as).map (fun bs => b :: bs)

/-- `tf.reduce_max` over the `sx` components of a batch. -/
def listMax (l : List ℕ) : ℕ := l.foldr max 0

/-- `SpecAug.mask(x, y, sx, sy)`: `tf.map_fn` of `_mask_sample` over the
batch with `sx_max = tf.reduce_max(sx)`.  `draws` is the per-sample oracle
for the uniform draws. -/
def SpecAug.mask (sa : SpecAug) (draws : ℕ → ℕ) (batch : List Sample) : Except MaskErr (List Sample) :=
  let sxMax := listMax (batch.map Sample.sx)
  mapIdxE (fun i s => maskSampleAt sa sxMax (draws i) s) 0 batch

/-- python `range(start, stop, step)` for a positive step. -/
def rangeStep (start stop step : ℕ) : List ℕ :=
  (List.range ((stop - start + step - 1) / step)).map (fun i => start + step * i)

/-- `bucket_boundaries = list(range(FLAGS.min_time, FLAGS.max_time + 1, FLAGS.bucket_width))`
computed in `load_datasets`. -/
def bucketBoundaries : List ℕ := rangeStep FLAGSminTime (FLAGSmaxTime + 1) FLAGSbucketWidth

/-- `bucket_batch_sizes = [FLAGS.batch_size_per_GPU] * num_buckets` where
`num_buckets = len(bucket_boundaries) + 1`. -/
def bucketBatchSizes (bounds : List ℕ) : List ℕ :=
  List.replicate (bounds.length + 1) FLAGSbatchSizePerGPU

/-- The bucket a sequence length falls into under
`tf.data.experimental.bucket_by_sequence_length`: the buckets are
`[0, b₀), [b₀, b₁), …, [b last, ∞)`, so the id is the number of boundaries
that are ≤ the length. -/
def bucketId (bounds : List ℕ) (len : ℕ) : ℕ :=
  (bounds.filter (fun b => decide (b ≤ len))).length

/-- Padded batching with the `padded_shapes` / `padding_values` configuration
of `_bucket_and_batch`: features are padded with `FLAGS.feature_pad_val` rows
(of width `FLAGS.num_features`) to the batch maximum time length, labels are
padded with `FLAGS.label_pad_val` to the batch maximum label length, and the
two per-sample length scalars are left unpadded. -/
def padBatch (batch : List Sample) : List Sample :=
  let maxT := listMax (batch.map (fun s => s.x.length))
  let maxY := listMax (batch.map (fun s => s.y.length))
  batch.map (fun s =>
    { s with
      x := s.x ++ List.replicate (maxT - s.x.length)
          (List.replicate FLAGSnumFeatures FLAGSfeaturePadVal),
      y := s.y ++ List.replicate (maxY - s.y.length) FLAGSlabelPadVal })

/-- One step of the per-bucket queueing of `group_by_window` (the mechanism
behind `bucket_by_sequence_length`): append sample `s` to the queue of bucket
`k` (creating the queue at the end of the state if it is new) and emit the
queue as a full window once it reaches `FLAGS.batch_size_per_GPU` elements. -/
def bbEmit (k : ℕ) (s : Sample) :
    List (ℕ × List Sample) → Option (List Sample) × List (ℕ × List Sample)
  | [] =>
    if FLAGSbatchSizePerGPU ≤ 1 then (some [s], [(k, [])])
    else (none, [(k, [s])])
  | (k1, q) :: rest =>
    if k = k1 then
      if FLAGSbatchSizePerGPU ≤ (q ++ [s]).length then (some (q ++ [s]), (k1, []) :: rest)
      else (none, (k1, q ++ [s]) :: rest)
    else
      let r := bbEmit k s rest
      (r.1, (k1, q) :: r.2)

/-- The stream semantics of `bucket_by_sequence_length`: route each sample to
the bucket of its `size_x` (the `element_length_func`), emit a padded batch
whenever a bucket's window fills, and flush the remaining partial windows
(padded) at the end of the stream. -/
def bbGo (bounds : List ℕ) : List Sample → List (ℕ × List Sample) → List (List Sample)
  | [], st => ((st.map Prod.snd).filter (fun q => !q.isEmpty)).map padBatch
  | s :: ds, st =>
    match bbEmit (bucketId bounds s.sx) s st with
    | (some b, st1) => padBatch b :: bbGo bounds ds st1
    | (none, st1) => bbGo bounds ds st1

/-- `_bucket_and_batch(ds, bucket_boundaries)`. -/
def bucketAndBatch (ds : List Sample) (bounds : List ℕ) : List (List Sample) :=
  bbGo bounds ds []

/-- Invariant of the bucket queues: every queued sample belongs to its
queue's bucket and no queue has reached the window size. -/
def StInv (bounds : List ℕ) (st : List (ℕ × List Sample)) : Prop :=
  ∀ p ∈ st, (∀ t ∈ p.2, bucketId bounds t.sx = p.1) ∧ p.2.length < FLAGSbatchSizePerGPU

/-- `FLAGS.c2n_map`, the character-to-code dictionary, in its source order. -/
def c2nMap : List (String × ℕ) :=
  [(("a"), 0), (("á"), 1), (("b"), 2), (("c"), 3), (("č"), 4), (("d"), 5), (("ď"), 6),
   (("e"), 7), (("é"), 8), (("ě"), 9), (("f"), 10), (("g"), 11), (("h"), 12), (("ch"), 13),
   (("i"), 14), (("í"), 15), (("j"), 16), (("k"), 17), (("l"), 18), (("m"), 19), (("n"), 20),
   (("ň"), 21), (("o"), 22), (("ó"), 23), (("p"), 24), (("q"), 25), (("r"), 26), (("ř"), 27),
   (("s"), 28), (("š"), 29), (("t"), 30), (("ť"), 31), (("u"), 32), (("ú"), 33), (("ů"), 34),
   (("v"), 35), (("w"), 36), (("x"), 37), (("y"), 38), (("ý"), 39), (("z"), 40), (("ž"), 41),
   ((" "), 42)]

/-- `FLAGS.n2c_map = {val: idx for idx, val in c2n_map.items()}`: the dict
comprehension swaps every (character, code) pair. -/
def n2cMap : List (ℕ × String) := c2nMap.map (fun p => (p.2, p.1))

/-- `FLAGS.alphabet_size = len(c2n_map)`. -/
def alphabetSize : ℕ := c2nMap.length

/-- Dictionary lookup `c2n_map[c]`. -/
def c2nLookup (c : String) : Option ℕ :=
  (c2nMap.find? (fun p => p.1 == c)).map Prod.snd

/-- Dictionary lookup `n2c_map[n]`. -/
def n2cLookup (n : ℕ) : Option String :=
  (n2cMap.find? (fun p => p.1 == n)).map Prod.snd

/-- One serialized record, already split into its two features: the
fixed-width feature matrix `x` and the label sequence `y` (the fields that
`_parse_proto` extracts with `tf.io.parse_single_example`). -/
structure Record where
  x : List (List ℚ)
  y : List ℤ
deriving DecidableEq, Repr

/-- A `.tfrecord` file: its name and its records. -/
structure TFFile where
  name : String
  records : List Record
deriving DecidableEq, Repr

/-- One `(path, subfolders, files)` triple of `os.walk`, with file contents
attached so reading can be modelled (the `subfolders` component is unused by
the source loop). -/
structure DirEntry where
  path : String
  files : List TFFile
deriving DecidableEq, Repr

/-- `_parse_proto`: extract the `(x, y)` features of a record. -/
def parseProto (r : Record) : List (List ℚ) × List ℤ := (r.x, r.y)

/-- The `ds.map(lambda x, y: (x, y, tf.shape(x)[0], tf.size(y)))` stage of
`_read_tfrecords`. -/
def attachSizes (p : List (List ℚ) × List ℤ) : Sample :=
  ⟨p.1, p.2, p.1.length, p.2.length⟩

/-- A linear-congruential step standing in for TensorFlow's PRNG stream.
The precise pseudo-random sequence TensorFlow derives from a seed is
implementation-defined; any fixed function of the seed models the documented
contract (deterministic given the seed). -/
def lcgNext (s : ℕ) : ℕ := (1103515245 * s + 12345) % 2147483648

/-- Selection shuffle driven by the seed: pick the element at
`seed % length`, then continue on the rest with the advanced seed. -/
def shuffleGo {α : Type} [DecidableEq α] : ℕ → ℕ → List α → List α
  | 0, _, _ => []
  | _ + 1, _, [] => []
  | fuel + 1, seed, a :: as =>
    let picked := (a :: as).getD (seed % (a :: as).length) a
    picked :: shuffleGo fuel (lcgNext seed) ((a :: as).erase picked)

/-- Seeded dataset shuffle (`tf.data.Dataset.shuffle` with a fixed seed and
`reshuffle_each_iteration=False`, and `list_files(..., shuffle=True, seed)`);
a deterministic, seed-determined permutation of the elements.  The buffer
size used by the source in the seeded cases covers the whole dataset, so a
full permutation is the faithful content model. -/
def shuffleSeeded {α : Type} [DecidableEq α] (seed : ℕ) (l : List α) : List α :=
  shuffleGo l.length seed l

/-- Fuel measure for the interleave loop: every queue costs its length
plus one. -/
def sizeLL {α : Type} (ls : List (List α)) : ℕ :=
  (ls.map (fun q => q.length + 1)).sum

/-- The round-robin core of `Dataset.interleave`: serve `block` elements from
the head queue of the active cycle, rotate it to the back (replacing it from
`pending` when exhausted). -/
def ilGo {α : Type} (block : ℕ) : ℕ → List (List α) → List (List α) → List α
  | 0, _, _ => []
  | _ + 1, [], [] => []
  | fuel + 1, [], p :: pending => ilGo block fuel [p] pending
  | fuel + 1, q :: act, pending =>
    q.take block ++
      (if (q.drop block).isEmpty then
        match pending with
        | [] => ilGo block fuel act []
        | p :: ps => ilGo block fuel (act ++ [p]) ps
      else ilGo block fuel (act ++ [q.drop block]) pending)

/-- `Dataset.interleave(map_func, block_length, cycle_length)` over the
per-file record streams: `cycle` streams are open at a time and served
round-robin in blocks of `block`. -/
def interleaveF {α : Type} (cycle block : ℕ) (ls : List (List α)) : List α :=
  ilGo block (sizeLL ls + ls.length + 1) (ls.take cycle) (ls.drop cycle)

/-- `_read_tfrecords(file_names, shuffle, seed, block_length, cycle_length)`:
optionally shuffle the file list (with the seed), interleave the per-file
record streams with `_parse_proto` mapped inside the interleave, then attach
the two per-sample length scalars. -/
def readTfrecords (fileNames : List TFFile) (shuffle : Bool) (seed : ℕ)
    (blockLength cycleLength : ℕ) : List Sample :=
  let files := if shuffle then shuffleSeeded seed fileNames else fileNames
  let ds := interleaveF cycleLength blockLength
      (files.map (fun f => f.records.map parseProto))
  ds.map attachSizes

/-- The characters after the last separator of a path (accumulator holds the
current component, reset at every `/`). -/
def lastComp : List Char → List Char → List Char
  | [], acc => acc
  | c :: cs, acc => if c = '/' then lastComp cs [] else lastComp cs (acc ++ [c])

/-- `os.path.split(path)[-1]` for POSIX paths: the last `/`-separated
component (empty when the path ends with a separator). -/
def folderNameOf (path : String) : String := String.mk (lastComp path.toList [])

/-- Whether `pat` is a leading piece of the character list. -/
def leadsWith : List Char → List Char → Bool
  | [], _ => true
  | _ :: _, [] => false
  | p :: ps, c :: cs => (p == c) && leadsWith ps cs

/-- Substring containment on character lists. -/
def containsSub (pat : List Char) : List Char → Bool
  | [] => pat.isEmpty
  | c :: cs => leadsWith pat (c :: cs) || containsSub pat cs

/-- The `'.tfrecord' in f` filter (python substring containment). -/
def hasTfrecord (f : String) : Bool := containsSub (".tfrecord").toList f.toList

/-- The `folder_name == ''` branch of `load_datasets`: read all files
sequentially (`shuffle=True` with the fixed seed, `cycle_length=1`,
`block_length = num_train + num_test`), shuffle the joined data once with
`FLAGS.shuffle_seed` (`reshuffle_each_iteration=False`), then split it with
`take`/`skip` at `FLAGS.num_train_data`. -/
def dsFromJoined (files : List TFFile) : List Sample × List Sample :=
  let numData := FLAGSnumTrainData + FLAGSnumTestData
  let ds := readTfrecords files true FLAGSshuffleSeed numData 1
  let ds2 := shuffleSeeded FLAGSshuffleSeed ds
  (ds2.take FLAGSnumTrainData, ds2.drop FLAGSnumTrainData)

/-- The `for path, subfolders, files in os.walk(load_dir)` loop of
`load_datasets`: dispatch on the folder name, overwriting earlier
assignments, with the `folder_name == ''` branch breaking out of the loop. -/
def walkFolders : List DirEntry → Option (List Sample) → Option (List Sample) →
    Option (List Sample) × Option (List Sample)
  | [], tr, te => (tr, te)
  | e :: rest, tr, te =>
    let folderName := folderNameOf e.path
    let files := e.files.filter (fun f => hasTfrecord f.name)
    if folderName = ("") ∧ files ≠ [] then
      (some (dsFromJoined files).1, some (dsFromJoined files).2)
    else if folderName = ("test") then
      walkFolders rest tr (some (readTfrecords files false 0 FLAGSnumTestData 8))
    else if folderName = ("train") then
      walkFolders rest (some (readTfrecords files false 0 FLAGSnumTrainData 8)) te
    else
      walkFolders rest tr te

/-- A `dataset.map(sa.mask)` stage over the stream of batches (the per-batch
oracle `draws` feeds each batch's per-sample draws). -/
def maskStage (sa : SpecAug) (draws : ℕ → ℕ → ℕ) (batches : List (List Sample)) :
    Except MaskErr (List (List Sample)) :=
  mapIdxE (fun i b => sa.mask (draws i) b) 0 batches

/-- `ds_train.shuffle(buffer_size=FLAGS.buffer_size, reshuffle_each_iteration=True)`:
an unseeded permutation of the batch stream, re-drawn every epoch.  The batch
contents are preserved; none of the properties proved here depend on the
arrangement, so the arrangement is modelled as left unchanged. -/
def shuffleStage (_bufferSize : ℕ) (l : List (List Sample)) : List (List Sample) := l

/-- `ds.prefetch(AUTOTUNE)`: a buffering hint; elements and order unchanged. -/
def prefetchStage (l : List (List Sample)) : List (List Sample) := l

/-- The train-side pipeline tail of `load_datasets`: bucket-and-batch, then
(only when `data_aug`) time masking followed by frequency masking, then
shuffle, then prefetch. -/
def trainPipeline (dataAug : Bool) (bwTime bwFreq : ℤ) (drawsT drawsF : ℕ → ℕ → ℕ)
    (ds : List Sample) : Except MaskErr (List (List Sample)) :=
  let saTime := specAugInit 0 bwTime
  let saFreq := specAugInit 1 bwFreq
  let dsb := bucketAndBatch ds bucketBoundaries
  (if dataAug then
    (maskStage saTime drawsT dsb).bind (fun t => maskStage saFreq drawsF t)
  else .ok dsb).map (fun r => prefetchStage (shuffleStage FLAGSbufferSize r))

/-- The test-side pipeline tail of `load_datasets`: bucket-and-batch, then
prefetch — no masking and no shuffling. -/
def testPipeline (ds : List Sample) : List (List Sample) :=
  prefetchStage (bucketAndBatch ds bucketBoundaries)

/-- `load_datasets(load_dir, data_aug, bandwidth_time, bandwidth_freq)`:
walk the directory entries to obtain the raw train/test streams, then apply
the train and test pipeline tails.  (`None` propagates when a split was never
assigned; the batch-count outputs of the source are plain arithmetic on FLAGS
and are not modelled.) -/
def loadDatasets (entries : List DirEntry) (dataAug : Bool) (bwTime bwFreq : ℤ)
    (drawsT drawsF : ℕ → ℕ → ℕ) :
    Option (Except MaskErr (List (List Sample))) × Option (List (List Sample)) :=
  let r := walkFolders entries none none
  (r.1.map (fun ds => trainPipeline dataAug bwTime bwFreq drawsT drawsF ds),
   r.2.map (fun ds => testPipeline ds))

/-- `EncoderLM`: an embedding layer, the `return_sequences` GRU layers
`grus[:-1]`, and the final GRU layer returning `(output, final_state)`.
The layers themselves are framework-provided numeric functions; they are
abstract here, while the dataflow of `call` is the source's. -/
structure EncoderLM (I E σ : Type) where
  embedding : I → E
  gruSeq : List (E → E)
  gruLast : E → E × σ

/-- `EncoderLM.call`: embed, thread through `grus[:-1]`, then the final GRU
returns `(output, final_state)`. -/
def EncoderLM.call {I E σ : Type} (encoder : EncoderLM I E σ) (inputSequence : I) : E × σ :=
  let x := encoder.embedding inputSequence
  let x2 := encoder.gruSeq.foldl (fun a g => g a) x
  encoder.gruLast x2

/-- `DecoderLM`: an embedding layer, the GRU layers (each taking an optional
initial state, as Keras accepts `None`), and the final `Dense` layer
producing logits.  The constructor always creates at least one GRU; `call`
indexes the list exactly the way the source does (`grus[0]`, `grus[1:-1]`,
`grus[-1]`). -/
structure DecoderLM (I E σ V : Type) where
  embedding : I → E
  grus : List (E → Option σ → E × σ)
  dense : E → V

/-- The `for i, gru in enumerate(self.grus[1:-1])` loop of `DecoderLM.call`,
feeding `states_in[i+1]` to the i-th middle layer and collecting the states. -/
def decMiddle {E σ : Type} :
    List (E → Option σ → E × σ) → E → List (Option σ) → ℕ → E × List σ
  | [], x, _, _ => (x, [])
  | g :: gs, x, statesIn, i =>
    let p := g x (statesIn.getD i none)
    let r := decMiddle gs p.1 statesIn (i + 1)
    (r.1, p.2 :: r.2)

/-- `DecoderLM.call(input_sequence, states_in)`: embed, first GRU with
`states_in[0]`, middle GRUs with `states_in[i+1]`, final GRU (`grus[-1]`)
with `states_in[-1]`, then the dense layer; returns
`(logits, [first_state, *middle_states, final_state])`.  (The `grus = []`
case is unreachable through the constructor, which always appends a final
GRU.) -/
def DecoderLM.call {I E σ V : Type} (decoder : DecoderLM I E σ V)
    (inputSequence : I) (statesIn : List (Option σ)) : V × List σ :=
  match decoder.grus with
  | [] => (decoder.dense (decoder.embedding inputSequence), [])
  | g0 :: rest =>
    let x0 := decoder.embedding inputSequence
    let p0 := g0 x0 (statesIn.getD 0 none)
    let pm := decMiddle rest.dropLast p0.1 statesIn 1
    let gl := rest.getLastD g0
    let pl := gl pm.1 (statesIn.getLastD none)
    (decoder.dense pl.1, p0.2 :: (pm.2 ++ [pl.2]))

/-- `train_step`: run the encoder on `input_seq`, set the decoder states from
the encoder outputs (`de_states = [en_states, None, None]`), run the decoder
on the ground-truth shifted target `target_seq_in` (teacher forcing), and
compute the loss between the logits and `target_seq_out` and the accuracy.
The loss/accuracy numerics and the gradient/optimizer update are
framework-floating-point code, abstracted as the functions `lossF`/`accF`;
the claim proved about this definition concerns the dataflow only. -/
def trainStep {I E σ V T : Type} (encoder : EncoderLM I E σ) (decoder : DecoderLM I E σ V)
    (lossF : T → V → ℚ) (accF : T → V → ℚ)
    (inputSeq : I) (targetSeqIn : I) (targetSeqOut : T) : ℚ × ℚ :=
  let enOutputs := encoder.call inputSeq
  let enState := enOutputs.2
  let deStates : List (Option σ) := [some enState, none, none]
  let r := decoder.call targetSeqIn deStates
  (lossF targetSeqOut r.1, accF targetSeqOut r.1)

/-- `K.argmax(..., axis=-1)` on one logit row: the smallest index attaining
the maximum. -/
def argmaxGo : ℕ → ℕ → ℚ → List ℚ → ℕ
  | _, bi, _, [] => bi
  | i, bi, bv, a :: as => if bv < a then argmaxGo (i + 1) i a as else argmaxGo (i + 1) bi bv as

/-- `tf.argmax` over the last axis of one vocabulary-sized row. -/
def argmaxIdx (l : List ℚ) : ℤ :=
  match l with
  | [] => 0
  | a :: as => (argmaxGo 1 0 a as : ℤ)

/-- Sum of all the entries of a `[batch, time]` matrix (`K.sum`). -/
def sum2 (m : List (List ℚ)) : ℚ := (m.map (fun r => r.sum)).sum

/-- `accuracy_func(y_true, y_pred, padding_vals, pad_lengths)`: argmax of the
predictions, optional length padding with the sentinel 100000, elementwise
correctness, a mask keeping entries with `y_true > padding_vals`, and the
ratio `sum(mask*correct) / sum(mask)`.  Exact rationals replace the float
arithmetic (the computation is sums of 0/1 terms and one division; an empty
mask gives 0 here where TensorFlow would give NaN). -/
def accuracyFunc (yTrue : List (List ℤ)) (yPred : List (List (List ℚ)))
    (paddingVals : ℤ) (padLengths : Bool) : ℚ :=
  let predValues := yPred.map (fun row => row.map argmaxIdx)
  let trueLen := (yTrue.headD []).length
  let predLen := (yPred.headD []).length
  let padded :=
    if padLengths then
      if 0 < trueLen - predLen then
        (yTrue, predValues.map (fun r => r ++ List.replicate (trueLen - predLen) (100000 : ℤ)))
      else if 0 < predLen - trueLen then
        (yTrue.map (fun r => r ++ List.replicate (predLen - trueLen) (100000 : ℤ)), predValues)
      else (yTrue, predValues)
    else (yTrue, predValues)
  let correct := List.zipWith
    (fun tr pr => List.zipWith (fun a b => if a = b then (1 : ℚ) else 0) tr pr)
    padded.1 padded.2
  let mask := padded.1.map (fun r => r.map (fun a => if paddingVals < a then (1 : ℚ) else 0))
  let nCorrect := sum2 (List.zipWith (fun mr cr => List.zipWith (fun a b => a * b) mr cr) mask correct)
  let nTotal := sum2 mask
  nCorrect / nTotal

/-- The `while True` greedy-decoding loop of `test_step`: decode, concatenate
the outputs along the time axis, feed the argmax back as the next decoder
input, and stop when the last predicted class of the first sample equals
`<eos>` or the produced output reaches `max_length`.  The fuel only bounds
the recursion; the source loop stops through the same two conditions (a
decoder producing empty time dimensions would make the source loop forever;
on exhausted fuel the accumulated output is returned). -/
def testLoop {E σ : Type} (decoder : DecoderLM (List (List ℤ)) E σ (List (List (List ℚ))))
    (eosTok : ℤ) (maxLength : ℕ) :
    ℕ → List (List ℤ) → List (Option σ) → Option (List (List (List ℚ))) → List (List (List ℚ))
  | 0, _, _, fo => fo.getD []
  | fuel + 1, deInputs, deStates, fullOutputs =>
    let r := decoder.call deInputs deStates
    let deOutputs := r.1
    let fullOutputs2 :=
      match fullOutputs with
      | none => deOutputs
      | some fo => List.zipWith (fun a b => a ++ b) fo deOutputs
    let deInputs2 := deOutputs.map (fun row => row.map argmaxIdx)
    let lastClass := (deInputs2.headD []).getLastD 0
    if lastClass = eosTok ∨ maxLength ≤ (fullOutputs2.headD []).length then fullOutputs2
    else testLoop decoder eosTok maxLength fuel deInputs2 (r.2.map some) fullOutputs2

/-- `test_step(encoder, decoder, input_seq, target_seq_out, min_len)`: when
`input_seq.shape[1] < min_len`, return the constant accuracy `0.5` without
running the models; otherwise decode greedily from a batch of `<sos>` tokens
with the decoder states initialized from the encoder, and return
`accuracy_func(target_seq_out, full_outputs, pad_lengths=True)`.  The
`<sos>`/`<eos>` codes, `max_length` and the padding value
(`FLAGS.c2n_map_lm`, `FLAGS.enc_dec_hyperparams`, `FLAGS.label_pad_val_lm`,
which are read from a FLAGS version not present in the sources) are
parameters. -/
def testStep {E σ : Type} (encoder : EncoderLM (List (List ℤ)) E σ)
    (decoder : DecoderLM (List (List ℤ)) E σ (List (List (List ℚ))))
    (inputSeq : List (List ℤ)) (targetSeqOut : List (List ℤ))
    (minLen : ℕ) (sosTok eosTok : ℤ) (maxLength : ℕ) (padVal : ℤ) : ℚ :=
  if (inputSeq.headD []).length < minLen then (1 : ℚ) / 2
  else
    let enOutputs := encoder.call inputSeq
    let enState := enOutputs.2
    let deStates : List (Option σ) := [some enState, none, none]
    let deInputs : List (List ℤ) := List.replicate inputSeq.length [sosTok]
    let fullOutputs := testLoop decoder eosTok maxLength (maxLength + 1) deInputs deStates none
    accuracyFunc targetSeqOut fullOutputs padVal true

/-- A minimal concrete encoder used to evaluate the model-level theorems. -/
def encW : EncoderLM (List (List ℤ)) ℚ ℚ := ⟨fun _ => 0, [], fun x => (x, 0)⟩

/-- A minimal concrete decoder whose dense layer always emits the logits
`[[[1, 0]]]` (argmax class 0). -/
def decW : DecoderLM (List (List ℤ)) ℚ ℚ (List (List (List ℚ))) :=
  ⟨fun _ => 0, [fun x _ => (x, 0)], fun _ => [[[1, 0]]]⟩

/-! ## Theorems -/

theorem booleanMask_nil_mask {α : Type} (x : List α) : booleanMask x [] = [] := by
  cases x <;> rfl

theorem booleanMask_cons {α : Type} (a : α) (x : List α) (b : Bool) (m : List Bool) :
    booleanMask (a :: x) (b :: m) = if b then a :: booleanMask x m else booleanMask x m := by
  cases b <;> simp [booleanMask]

theorem booleanMask_replicate_true {α : Type} :
    ∀ (n : ℕ) (x : List α), n ≤ x.length →
      booleanMask x (List.replicate n true) = x.take n := by
  intro n
  induction n with
  | zero => intro x _; simp [booleanMask]
  | succ k ih =>
      intro x hx
      cases x with
      | nil => simp at hx
      | cons a as =>
          rw [List.replicate_succ, booleanMask_cons]
          simp only [if_pos rfl, List.take_succ_cons] at *
          rw [ih as (by simpa using hx)]
          simp

theorem booleanMask_replicate_false {α : Type} :
    ∀ (n : ℕ) (x : List α), booleanMask x (List.replicate n false) = [] := by
  intro n
  induction n with
  | zero => intro x; exact booleanMask_nil_mask x
  | succ k ih =>
      intro x
      cases x with
      | nil => rfl
      | cons a as =>
          rw [List.replicate_succ, booleanMask_cons]
          simp [ih as]

theorem booleanMask_append {α : Type} :
    ∀ (m1 m2 : List Bool) (x : List α), m1.length ≤ x.length →
      booleanMask x (m1 ++ m2) = booleanMask x m1 ++ booleanMask (x.drop m1.length) m2 := by
  intro m1
  induction m1 with
  | nil => intro m2 x _; simp [booleanMask_nil_mask]
  | cons b m ih =>
      intro m2 x hx
      cases x with
      | nil => simp at hx
      | cons a as =>
          simp only [List.cons_append, booleanMask_cons]
          rw [ih m2 as (by simpa using hx)]
          cases b <;> simp

/-- The effect of the contiguous SpecAug mask: the band `[a, a+b)` is removed
and the `c` rows after it are kept. -/
theorem booleanMask_maskVec {α : Type} (x : List α) (a b c : ℕ)
    (h : a + b + c ≤ x.length) :
    booleanMask x (maskVec a b c) = x.take a ++ (x.drop (a + b)).take c := by
  have ha : a ≤ x.length := by omega
  have hab : a + b ≤ x.length := by omega
  have hdrop : ((x.drop a).drop b).length = x.length - a - b := by
    simp
    omega
  unfold maskVec
  rw [booleanMask_append (List.replicate a true) _ x (by simpa using ha)]
  rw [booleanMask_replicate_true a x ha]
  rw [List.length_replicate]
  rw [booleanMask_append (List.replicate b false) _ (x.drop a)
      (by simp; omega)]
  rw [booleanMask_replicate_false]
  rw [List.length_replicate]
  rw [booleanMask_replicate_true c ((x.drop a).drop b) (by rw [hdrop]; omega)]
  rw [List.drop_drop]
  simp [Nat.add_comm a b]

theorem length_booleanMask_maskVec {α : Type} (x : List α) (a b c : ℕ)
    (h : a + b + c ≤ x.length) :
    (booleanMask x (maskVec a b c)).length = a + c := by
  rw [booleanMask_maskVec x a b c h]
  simp
  omega

theorem getD_mem {α : Type} :
    ∀ (l : List α) (i : ℕ) (d : α), i < l.length → l.getD i d ∈ l := by
  intro l
  induction l with
  | nil => intro i d h; simp at h
  | cons a as ih =>
      intro i d h
      cases i with
      | zero => simp
      | succ k =>
          simp only [List.getD_cons_succ]
          exact List.mem_cons_of_mem a (ih k d (by simpa using h))

theorem getD_map_of_lt {α β : Type} (f : α → β) (d : α) (dd : β) :
    ∀ (l : List α) (i : ℕ), i < l.length →
      (l.map f).getD i dd = f (l.getD i d) := by
  intro l
  induction l with
  | nil => intro i h; simp at h
  | cons a as ih =>
      intro i h
      cases i with
      | zero => simp
      | succ k => simpa using ih k (by simpa using h)

theorem mapRange_getD {α β : Type} (f : α → β) (d : α) (l : List α) :
    (List.range l.length).map (fun i => f (l.getD i d)) = l.map f := by
  apply List.ext_getElem
  · simp
  · intro i h1 h2
    simp only [List.getElem_map, List.getElem_range]
    congr 1
    simp at h2
    simp [List.getD_eq_getElem?_getD, List.getElem?_eq_getElem h2]

theorem length_transposeM (x : List (List ℚ)) (n : ℕ) :
    (transposeM x n).length = n := by
  simp [transposeM]

/-- Removing a contiguous band of rows of the transpose (columns of the
original matrix) and transposing back removes the same band from every row. -/
theorem transposeM_band_removed (x : List (List ℚ)) (F a c : ℕ)
    (hrect : ∀ r ∈ x, r.length = F) :
    transposeM ((transposeM x F).take a ++ (transposeM x F).drop (a + c)) x.length
      = x.map (fun r => r.take a ++ r.drop (a + c)) := by
  unfold transposeM
  rw [← mapRange_getD (fun r => r.take a ++ r.drop (a + c)) ([] : List ℚ) x]
  apply List.map_congr_left
  intro i hi
  have hix : i < x.length := List.mem_range.mp hi
  have hrow : ((List.range F).map (fun j => x.map (fun r => r.getD j 0))).map
      (fun r => r.getD i 0) = x.getD i [] := by
    rw [List.map_map]
    have hcongr : ∀ j ∈ List.range F,
        ((fun r => r.getD i (0 : ℚ)) ∘ fun j => x.map fun r => r.getD j 0) j
          = (fun j => (x.getD i []).getD j 0) j := by
      intro j _
      simp only [Function.comp]
      exact getD_map_of_lt (fun r => r.getD j 0) [] 0 x i hix
    rw [List.map_congr_left hcongr]
    have hlen : (x.getD i []).length = F := hrect _ (getD_mem x i [] hix)
    rw [← hlen]
    simpa using mapRange_getD (fun q : ℚ => q) (0 : ℚ) (x.getD i [])
  simp only [List.map_append, List.map_take, List.map_drop]
  rw [hrow]

theorem specAugInit_axis_zero (B : ℤ) : (specAugInit 0 B).axis = 0 := by
  simp [specAugInit]

theorem specAugInit_axis_one (B : ℤ) : (specAugInit 1 B).axis = 1 := by
  simp [specAugInit]

theorem specAugInit_bandwidth (a B : ℤ) : (specAugInit a B).bandwidth = B := rfl

/-- Time masking (`axis = 0`): a successful `_mask_sample` removes the
contiguous band `[tmLb, tmLb + (B - sx_max + sx))` of time frames, keeps the
frames outside it (within the true length `sx`, dropping any padding rows
beyond `sx`), leaves the other tuple components unchanged, and the result has
exactly `sx_max - B` frames. -/
theorem maskTime_ok {B : ℤ} {sxMax tmLb : ℕ} {s out : Sample}
    (h : maskSampleAt (specAugInit 0 B) sxMax tmLb s = .ok out)
    (hsx : s.sx ≤ s.x.length) :
    0 ≤ B - sxMax + s.sx ∧
    tmLb + (B - (sxMax : ℤ) + (s.sx : ℤ)).toNat < s.sx ∧
    out.x = s.x.take tmLb ++
      (s.x.drop (tmLb + (B - (sxMax : ℤ) + (s.sx : ℤ)).toNat)).take
        (s.sx - (tmLb + (B - (sxMax : ℤ) + (s.sx : ℤ)).toNat)) ∧
    out.y = s.y ∧ out.sx = s.sx ∧ out.sy = s.sy ∧
    (out.x.length : ℤ) = (sxMax : ℤ) - B := by
  unfold maskSampleAt at h
  rw [specAugInit_axis_zero, specAugInit_bandwidth] at h
  rw [if_pos rfl] at h
  simp only [] at h
  split_ifs at h with h1 h2 h3
  set bwN : ℕ := (B - (sxMax : ℤ) + (s.sx : ℤ)).toNat with hbwN
  have hb0 : 0 ≤ B - (sxMax : ℤ) + (s.sx : ℤ) := by omega
  have hlt : tmLb + bwN < s.sx := by omega
  have hsum : tmLb + bwN + (s.sx - (tmLb + bwN)) ≤ s.x.length := by omega
  cases hes : ensureShape (FLAGSnumFeatures : ℤ)
      (booleanMask s.x (maskVec tmLb bwN (s.sx - (tmLb + bwN)))) with
  | error e =>
      rw [hes] at h
      simp [Except.map] at h
  | ok v =>
      rw [hes] at h
      simp only [Except.map, Except.ok.injEq] at h
      have hv : v = booleanMask s.x (maskVec tmLb bwN (s.sx - (tmLb + bwN))) := by
        unfold ensureShape at hes
        split_ifs at hes
        simpa using hes.symm
      have hx : out.x = s.x.take tmLb ++
          (s.x.drop (tmLb + bwN)).take (s.sx - (tmLb + bwN)) := by
        rw [← h, hv]
        exact booleanMask_maskVec s.x tmLb bwN (s.sx - (tmLb + bwN)) hsum
      refine ⟨hb0, hlt, hx, by rw [← h], by rw [← h], by rw [← h], ?_⟩
      have hlen : out.x.length = s.sx - bwN := by
        rw [hx]
        simp
        omega
      omega

/-- Frequency masking (`axis = 1`): a successful `_mask_sample` on a
rectangular matrix with `F` frequency bins removes the contiguous band
`[tmLb, tmLb + B)` of bins from every time frame, keeps the number of frames,
and each resulting frame has exactly `F - B` bins. -/
theorem maskFreq_ok {B : ℤ} {sxMax tmLb : ℕ} {s out : Sample} {F : ℕ}
    (h : maskSampleAt (specAugInit 1 B) sxMax tmLb s = .ok out)
    (hrect : ∀ r ∈ s.x, r.length = F) :
    0 ≤ B ∧ tmLb + B.toNat < F ∧
    out.x = s.x.map (fun r => r.take tmLb ++ r.drop (tmLb + B.toNat)) ∧
    out.y = s.y ∧ out.sx = s.sx ∧ out.sy = s.sy ∧
    out.x.length = s.x.length ∧
    ∀ r ∈ out.x, (r.length : ℤ) = (F : ℤ) - B := by
  unfold maskSampleAt at h
  rw [specAugInit_axis_one, specAugInit_bandwidth] at h
  rw [if_neg (by norm_num), if_pos rfl] at h
  simp only [] at h
  rw [length_transposeM] at h
  have hBsimp : B - (ncolsOf s.x : ℤ) + (ncolsOf s.x : ℤ) = B := by ring
  rw [hBsimp] at h
  split_ifs at h with h1 h2 h3
  have hb0 : 0 ≤ B := by omega
  have hlt0 : (tmLb : ℤ) < (ncolsOf s.x : ℤ) - B := by omega
  have hncols : 0 < ncolsOf s.x := by omega
  have hF : ncolsOf s.x = F := by
    rcases hx0 : s.x with _ | ⟨r, rs⟩
    · rw [hx0] at hncols
      simp [ncolsOf] at hncols
    · have : r ∈ s.x := by rw [hx0]; simp
      simpa [hx0, ncolsOf] using hrect r this
  have hlt : tmLb + B.toNat < F := by omega
  have hxTlen : (transposeM s.x (ncolsOf s.x)).length = ncolsOf s.x :=
    length_transposeM _ _
  have hsum : tmLb + B.toNat + (ncolsOf s.x - (tmLb + B.toNat))
      ≤ (transposeM s.x (ncolsOf s.x)).length := by
    rw [hxTlen]
    omega
  have hmask : booleanMask (transposeM s.x (ncolsOf s.x))
        (maskVec tmLb B.toNat (ncolsOf s.x - (tmLb + B.toNat)))
      = (transposeM s.x (ncolsOf s.x)).take tmLb
        ++ (transposeM s.x (ncolsOf s.x)).drop (tmLb + B.toNat) := by
    rw [booleanMask_maskVec _ tmLb B.toNat (ncolsOf s.x - (tmLb + B.toNat)) hsum]
    refine congrArg (fun t => (transposeM s.x (ncolsOf s.x)).take tmLb ++ t) ?_
    apply List.take_of_length_le
    rw [List.length_drop, hxTlen]
  cases hes : ensureShape ((FLAGSnumFeatures : ℤ) - B)
      (transposeM (booleanMask (transposeM s.x (ncolsOf s.x))
        (maskVec tmLb B.toNat (ncolsOf s.x - (tmLb + B.toNat)))) s.x.length) with
  | error e =>
      rw [hes] at h
      simp [Except.map] at h
  | ok v =>
      rw [hes] at h
      simp only [Except.map, Except.ok.injEq] at h
      have hv : v = transposeM (booleanMask (transposeM s.x (ncolsOf s.x))
          (maskVec tmLb B.toNat (ncolsOf s.x - (tmLb + B.toNat)))) s.x.length := by
        unfold ensureShape at hes
        split_ifs at hes
        simpa using hes.symm
      have hx : out.x = s.x.map (fun r => r.take tmLb ++ r.drop (tmLb + B.toNat)) := by
        rw [← h, hv, hmask, hF]
        exact transposeM_band_removed s.x F tmLb B.toNat hrect
      refine ⟨hb0, hlt, hx, by rw [← h], by rw [← h], by rw [← h], by rw [hx]; simp, ?_⟩
      intro r hr
      rw [hx] at hr
      rcases List.mem_map.mp hr with ⟨r0, hr0, hreq⟩
      have hr0len : r0.length = F := hrect r0 hr0
      rw [← hreq]
      simp [hr0len]
      omega

/-- Successful `tf.map_fn` over a batch: every output element comes from some
input element through a successful per-sample call. -/
theorem mapIdxE_ok_mem {α β : Type} (f : ℕ → α → Except MaskErr β) :
    ∀ (l : List α) (i : ℕ) (out : List β), mapIdxE f i l = .ok out →
      ∀ b ∈ out, ∃ j a, a ∈ l ∧ f j a = .ok b := by
  intro l
  induction l with
  | nil =>
      intro i out h b hb
      simp only [mapIdxE, Except.ok.injEq] at h
      rw [← h] at hb
      simp at hb
  | cons a as ih =>
      intro i out h b hb
      simp only [mapIdxE] at h
      cases hfa : f i a with
      | error e => rw [hfa] at h; simp at h
      | ok b0 =>
          rw [hfa] at h
          cases hrest : mapIdxE f (i + 1) as with
          | error e => rw [hrest] at h; simp [Except.map] at h
          | ok bs =>
              rw [hrest] at h
              simp only [Except.map, Except.ok.injEq] at h
              rw [← h] at hb
              rcases List.mem_cons.mp hb with hb1 | hb2
              · exact ⟨i, a, by simp, by rw [hfa, hb1]⟩
              · rcases ih (i + 1) bs hrest b hb2 with ⟨j, a1, ha1, hja⟩
                exact ⟨j, a1, List.mem_cons_of_mem a ha1, hja⟩

set_option maxRecDepth 100000 in
/-- **C1** (counterexample): `_mask_sample` does not zero the chosen band and
does not retain the matrix shape.  At `SpecAug(axis=0, bandwidth=2)`, a
3-frame sample of width `FLAGS.num_features = 123` (so `tf.ensure_shape`
passes) with `sx = 3`, `sx_max = 3` and draw `tm_lb = 0` yields the single
surviving frame: the band's two rows were removed, the shape shrinks from 3
frames to 1, and the zeroed-band matrix is not produced. -/
theorem c1_counterexample :
    maskSampleAt (specAugInit 0 2) 3 0
        ⟨[List.replicate 123 (1 : ℚ), List.replicate 123 2, List.replicate 123 3], [], 3, 0⟩
      = Except.ok ⟨[List.replicate 123 (3 : ℚ)], [], 3, 0⟩
    ∧ ([List.replicate 123 (3 : ℚ)] : List (List ℚ)).length
        ≠ ([List.replicate 123 (1 : ℚ), List.replicate 123 2,
            List.replicate 123 3] : List (List ℚ)).length
    ∧ ([List.replicate 123 (3 : ℚ)] : List (List ℚ))
        ≠ [List.replicate 123 (0 : ℚ), List.replicate 123 0, List.replicate 123 3] :=
  ⟨rfl, by decide, by decide⟩

/-- **C1** (amended): applying spectral masking `SpecAug(axis=0).mask` (time)
or `SpecAug(axis=1).mask` (frequency) to an acoustic feature matrix removes a
contiguous band of rows (time frames, within the sample's true length `sx`)
or columns (frequency bins): the entries inside the chosen band are deleted
rather than zeroed, the matrix shrinks along the masked axis by the band's
width (for time masking, padding rows beyond `sx` are also dropped), and all
entries outside the band are unchanged and keep their order. -/
theorem c1_mask_removes_band :
    (∀ (B : ℤ) (sxMax tmLb : ℕ) (s out : Sample),
      maskSampleAt (specAugInit 0 B) sxMax tmLb s = .ok out →
      s.sx ≤ s.x.length →
      out = { s with
        x := s.x.take tmLb ++
            (s.x.drop (tmLb + (B - (sxMax : ℤ) + (s.sx : ℤ)).toNat)).take
              (s.sx - (tmLb + (B - (sxMax : ℤ) + (s.sx : ℤ)).toNat)) })
    ∧
    (∀ (B : ℤ) (sxMax tmLb : ℕ) (s out : Sample) (F : ℕ),
      maskSampleAt (specAugInit 1 B) sxMax tmLb s = .ok out →
      (∀ r ∈ s.x, r.length = F) →
      out = { s with x := s.x.map (fun r => r.take tmLb ++ r.drop (tmLb + B.toNat)) }) := by
  constructor
  · intro B sxMax tmLb s out h hsx
    obtain ⟨-, -, hx, hy, hsx1, hsy, -⟩ := maskTime_ok h hsx
    cases out
    cases s
    simp_all
  · intro B sxMax tmLb s out F h hrect
    obtain ⟨-, -, hx, hy, hsx1, hsy, -, -⟩ := maskFreq_ok h hrect
    cases out
    cases s
    simp_all

set_option maxRecDepth 100000 in
/-- Witness for `c1_mask_removes_band` at a concrete width-123 input. -/
theorem c1_witness :
    (maskSampleAt (specAugInit 0 2) 3 0
        ⟨[List.replicate 123 (1 : ℚ), List.replicate 123 2, List.replicate 123 3], [], 3, 0⟩
        = Except.ok ⟨[List.replicate 123 (3 : ℚ)], [], 3, 0⟩)
    ∧ (⟨[List.replicate 123 (3 : ℚ)], [], 3, 0⟩ : Sample)
        = { (⟨[List.replicate 123 (1 : ℚ), List.replicate 123 2,
              List.replicate 123 3], [], 3, 0⟩ : Sample) with
            x := ([List.replicate 123 (1 : ℚ), List.replicate 123 2,
                List.replicate 123 3] : List (List ℚ)).take 0 ++
                (([List.replicate 123 (1 : ℚ), List.replicate 123 2,
                    List.replicate 123 3] : List (List ℚ)).drop
                    (0 + ((2 : ℤ) - ((3 : ℕ) : ℤ) + ((3 : ℕ) : ℤ)).toNat)).take
                  (3 - (0 + ((2 : ℤ) - ((3 : ℕ) : ℤ) + ((3 : ℕ) : ℤ)).toNat)) } :=
  ⟨rfl,
   c1_mask_removes_band.1 2 3 0
     ⟨[List.replicate 123 (1 : ℚ), List.replicate 123 2, List.replicate 123 3], [], 3, 0⟩
     ⟨[List.replicate 123 (3 : ℚ)], [], 3, 0⟩ rfl (by decide)⟩

/-- **C2**: batch shape compatibility of `SpecAug.mask`.  After time masking
with bandwidth `B`, every sample of the batch has `sx_max - B` time frames
(the effective band has length `B - sx_max + sx`); after frequency masking,
every sample has exactly `FLAGS.num_features - B` frequency bins; hence all
masked tensors within one batch share one shape. -/
theorem c2_batch_shape_compat :
    (∀ (B : ℤ) (draws : ℕ → ℕ) (batch out : List Sample),
      (specAugInit 0 B).mask draws batch = .ok out →
      (∀ s ∈ batch, s.sx ≤ s.x.length) →
      ∀ s1 ∈ out, (s1.x.length : ℤ) = (listMax (batch.map Sample.sx) : ℤ) - B)
    ∧
    (∀ (B : ℤ) (draws : ℕ → ℕ) (batch out : List Sample),
      (specAugInit 1 B).mask draws batch = .ok out →
      (∀ s ∈ batch, ∀ r ∈ s.x, r.length = FLAGSnumFeatures) →
      ∀ s1 ∈ out, ∀ r ∈ s1.x, (r.length : ℤ) = (FLAGSnumFeatures : ℤ) - B)
    ∧
    (∀ (B : ℤ) (draws : ℕ → ℕ) (batch out : List Sample),
      (specAugInit 0 B).mask draws batch = .ok out →
      (∀ s ∈ batch, s.sx ≤ s.x.length) →
      ∀ s1 ∈ out, ∀ s2 ∈ out, s1.x.length = s2.x.length) := by
  have key : ∀ (B : ℤ) (draws : ℕ → ℕ) (batch out : List Sample),
      (specAugInit 0 B).mask draws batch = .ok out →
      (∀ s ∈ batch, s.sx ≤ s.x.length) →
      ∀ s1 ∈ out, (s1.x.length : ℤ) = (listMax (batch.map Sample.sx) : ℤ) - B := by
    intro B draws batch out hok hsx s1 hs1
    unfold SpecAug.mask at hok
    simp only [] at hok
    rcases mapIdxE_ok_mem _ batch 0 out hok s1 hs1 with ⟨j, a, hmem, hja⟩
    obtain ⟨-, -, -, -, -, -, hlen⟩ := maskTime_ok hja (hsx a hmem)
    exact hlen
  refine ⟨key, ?_, ?_⟩
  · intro B draws batch out hok hrect s1 hs1 r hr
    unfold SpecAug.mask at hok
    simp only [] at hok
    rcases mapIdxE_ok_mem _ batch 0 out hok s1 hs1 with ⟨j, a, hmem, hja⟩
    obtain ⟨-, -, -, -, -, -, -, hbins⟩ := maskFreq_ok hja (hrect a hmem)
    exact hbins r hr
  · intro B draws batch out hok hsx s1 hs1 s2 hs2
    have h1 := key B draws batch out hok hsx s1 hs1
    have h2 := key B draws batch out hok hsx s2 hs2
    have : (s1.x.length : ℤ) = (s2.x.length : ℤ) := by rw [h1, h2]
    exact_mod_cast this

set_option maxRecDepth 100000 in
/-- Witness for `c2_batch_shape_compat` at concrete batches. -/
theorem c2_witness :
    ((specAugInit 0 1).mask (fun _ => 0)
        [⟨[List.replicate 123 (5 : ℚ), List.replicate 123 6], [], 2, 0⟩]
        = Except.ok [⟨[List.replicate 123 (6 : ℚ)], [], 2, 0⟩])
    ∧ (∀ s1 ∈ ([⟨[List.replicate 123 (6 : ℚ)], [], 2, 0⟩] : List Sample),
        (s1.x.length : ℤ)
          = (listMax (([⟨[List.replicate 123 (5 : ℚ), List.replicate 123 6],
              [], 2, 0⟩] : List Sample).map Sample.sx) : ℤ) - 1)
    ∧ ((specAugInit 1 3).mask (fun _ => 0) [⟨[List.replicate 123 (1 : ℚ)], [], 1, 0⟩]
        = Except.ok [⟨[List.replicate 120 (1 : ℚ)], [], 1, 0⟩])
    ∧ (∀ s1 ∈ ([⟨[List.replicate 120 (1 : ℚ)], [], 1, 0⟩] : List Sample),
        ∀ r ∈ s1.x, (r.length : ℤ) = (FLAGSnumFeatures : ℤ) - 3) := by
  refine ⟨rfl,
    c2_batch_shape_compat.1 1 (fun _ => 0)
      [⟨[List.replicate 123 (5 : ℚ), List.replicate 123 6], [], 2, 0⟩]
      [⟨[List.replicate 123 (6 : ℚ)], [], 2, 0⟩] rfl (by decide), rfl,
    c2_batch_shape_compat.2.1 3 (fun _ => 0) [⟨[List.replicate 123 (1 : ℚ)], [], 1, 0⟩]
      [⟨[List.replicate 120 (1 : ℚ)], [], 1, 0⟩] rfl (by decide)⟩

/-- A masking branch that reaches `tf.ensure_shape` produces either a result
or a shape error, never the `AttributeError`. -/
theorem ensureShape_map_ne_attr (cols : ℤ) (v : List (List ℚ)) (f : List (List ℚ) → Sample) :
    (ensureShape cols v).map f ≠ .error .attrError := by
  unfold ensureShape
  split_ifs <;> simp [Except.map]

/-- **C8**: the constructor coerces any axis outside `{0, 1}` to `0`, so every
constructed instance has axis `0` or `1`, and the `AttributeError` branch of
`_mask_sample` is unreachable for instances made through the constructor. -/
theorem c8_axis_coercion :
    (∀ (a bw : ℤ), (specAugInit a bw).axis = 0 ∨ (specAugInit a bw).axis = 1)
    ∧ (∀ (a bw : ℤ) (sxMax tmLb : ℕ) (s : Sample),
        maskSampleAt (specAugInit a bw) sxMax tmLb s ≠ .error .attrError) := by
  have hax : ∀ (a bw : ℤ), (specAugInit a bw).axis = 0 ∨ (specAugInit a bw).axis = 1 := by
    intro a bw
    unfold specAugInit
    by_cases h : a = 0 ∨ a = 1
    · rw [if_pos h]
      exact h
    · rw [if_neg h]
      exact Or.inl rfl
  refine ⟨hax, ?_⟩
  intro a bw sxMax tmLb s
  rcases hax a bw with h0 | h1
  · unfold maskSampleAt
    rw [h0]
    rw [if_pos rfl]
    simp only []
    split_ifs <;> first | exact ensureShape_map_ne_attr _ _ _ | simp
  · unfold maskSampleAt
    rw [h1]
    rw [if_neg (by norm_num), if_pos rfl]
    simp only []
    split_ifs <;> first | exact ensureShape_map_ne_attr _ _ _ | simp

/-- Witness for `c8_axis_coercion` at a concrete out-of-range axis. -/
theorem c8_witness :
    (specAugInit 5 20).axis = 0
    ∧ maskSampleAt (specAugInit 5 20) 4 0 ⟨[[1], [2], [3]], [], 3, 0⟩ ≠ .error .attrError :=
  ⟨by decide, c8_axis_coercion.2 5 20 4 0 ⟨[[1], [2], [3]], [], 3, 0⟩⟩

theorem mem_le_listMax : ∀ (l : List ℕ) (a : ℕ), a ∈ l → a ≤ listMax l := by
  intro l
  induction l with
  | nil => intro a ha; simp at ha
  | cons b bs ih =>
      intro a ha
      rcases List.mem_cons.mp ha with h | h
      · rw [h]
        exact le_max_left _ _
      · exact le_trans (ih a h) (le_max_right _ _)

theorem padBatch_spec (g : List Sample) :
    ∀ p ∈ padBatch g, ∃ s ∈ g,
      p.x = s.x ++ List.replicate (listMax (g.map (fun t => t.x.length)) - s.x.length)
          (List.replicate FLAGSnumFeatures FLAGSfeaturePadVal) ∧
      p.y = s.y ++ List.replicate (listMax (g.map (fun t => t.y.length)) - s.y.length)
          FLAGSlabelPadVal ∧
      p.sx = s.sx ∧ p.sy = s.sy ∧
      p.x.length = listMax (g.map (fun t => t.x.length)) ∧
      p.y.length = listMax (g.map (fun t => t.y.length)) := by
  intro p hp
  unfold padBatch at hp
  simp only [] at hp
  rcases List.mem_map.mp hp with ⟨s, hs, hmap⟩
  refine ⟨s, hs, ?_, ?_, ?_, ?_, ?_, ?_⟩
  · rw [← hmap]
  · rw [← hmap]
  · rw [← hmap]
  · rw [← hmap]
  · rw [← hmap]
    have hle : s.x.length ≤ listMax (g.map (fun t => t.x.length)) :=
      mem_le_listMax _ _ (List.mem_map_of_mem (fun t => t.x.length) hs)
    simp
    omega
  · rw [← hmap]
    have hle : s.y.length ≤ listMax (g.map (fun t => t.y.length)) :=
      mem_le_listMax _ _ (List.mem_map_of_mem (fun t => t.y.length) hs)
    simp
    omega

theorem bbEmit_inv (bounds : List ℕ) (k : ℕ) (s : Sample) (hk : bucketId bounds s.sx = k) :
    ∀ st, StInv bounds st →
      StInv bounds (bbEmit k s st).2 ∧
      ∀ b, (bbEmit k s st).1 = some b →
        (∀ t ∈ b, bucketId bounds t.sx = k) ∧ b.length = FLAGSbatchSizePerGPU := by
  intro st
  induction st with
  | nil =>
      intro hinv
      have hno : ¬ FLAGSbatchSizePerGPU ≤ 1 := by decide
      simp only [bbEmit, if_neg hno]
      constructor
      · intro p hp
        simp at hp
        rw [hp]
        refine ⟨?_, by simp [FLAGSbatchSizePerGPU]⟩
        intro t ht
        simp at ht
        rw [ht]
        exact hk
      · intro b hb
        simp at hb
  | cons p rest ih =>
      intro hinv
      obtain ⟨hpb, hplen⟩ := hinv p (by simp)
      have hinvrest : StInv bounds rest := fun q hq => hinv q (by simp [hq])
      obtain ⟨ihinv, ihemit⟩ := ih hinvrest
      rcases p with ⟨k1, q⟩
      by_cases hkk : k = k1
      · subst hkk
        by_cases hfull : FLAGSbatchSizePerGPU ≤ (q ++ [s]).length
        · simp only [bbEmit, if_pos rfl, if_pos hfull]
          constructor
          · intro p1 hp1
            rcases List.mem_cons.mp hp1 with h1 | h1
            · rw [h1]
              refine ⟨by intro t ht; simp at ht, ?_⟩
              have : (0 : ℕ) < FLAGSbatchSizePerGPU := by decide
              simpa using this
            · exact hinv _ (by simp [h1])
          · intro b hb
            simp at hb
            subst hb
            constructor
            · intro t ht
              rcases List.mem_append.mp ht with ht1 | ht1
              · exact hpb t ht1
              · simp at ht1
                rw [ht1]
                exact hk
            · simp at hfull hplen ⊢
              omega
        · simp only [bbEmit, if_pos rfl, if_neg hfull]
          constructor
          · intro p1 hp1
            rcases List.mem_cons.mp hp1 with h1 | h1
            · rw [h1]
              constructor
              · intro t ht
                rcases List.mem_append.mp ht with ht1 | ht1
                · exact hpb t ht1
                · simp at ht1
                  rw [ht1]
                  exact hk
              · simp at hfull ⊢
                omega
            · exact hinv _ (by simp [h1])
          · intro b hb
            simp at hb
      · simp only [bbEmit, if_neg hkk]
        constructor
        · intro p1 hp1
          rcases List.mem_cons.mp hp1 with h1 | h1
          · rw [h1]
            exact ⟨hpb, hplen⟩
          · exact ihinv p1 h1
        · intro b hb
          exact ihemit b hb

theorem bbGo_mem (bounds : List ℕ) :
    ∀ (ds : List Sample) (st : List (ℕ × List Sample)), StInv bounds st →
      ∀ b ∈ bbGo bounds ds st,
        ∃ g, b = padBatch g ∧ g.length ≤ FLAGSbatchSizePerGPU ∧
          ∃ kk, ∀ t ∈ g, bucketId bounds t.sx = kk := by
  intro ds
  induction ds with
  | nil =>
      intro st hinv b hb
      simp only [bbGo] at hb
      rcases List.mem_map.mp hb with ⟨q, hq, hpad⟩
      rcases List.mem_filter.mp hq with ⟨hq1, -⟩
      rcases List.mem_map.mp hq1 with ⟨p, hp, hsnd⟩
      obtain ⟨hb1, hb2⟩ := hinv p hp
      refine ⟨q, hpad.symm, ?_, p.1, ?_⟩
      · rw [← hsnd] at *
        omega
      · rw [← hsnd]
        exact hb1
  | cons s ds ih =>
      intro st hinv b hb
      obtain ⟨hinv1, hemit⟩ := bbEmit_inv bounds (bucketId bounds s.sx) s rfl st hinv
      rcases hE : bbEmit (bucketId bounds s.sx) s st with ⟨o, st1⟩
      rw [hE] at hinv1 hemit
      simp only [bbGo, hE] at hb
      cases o with
      | some b1 =>
          simp only [] at hb
          rcases List.mem_cons.mp hb with h1 | h1
          · obtain ⟨hmemt, hlen⟩ := hemit b1 rfl
            exact ⟨b1, h1, by omega, bucketId bounds s.sx, hmemt⟩
          · exact ih st1 hinv1 b h1
      | none =>
          simp only [] at hb
          exact ih st1 hinv1 b hb

/-- **C3**: `_bucket_and_batch` groups samples by the bucket of their
`size_x`, with boundaries `range(FLAGS.min_time, FLAGS.max_time + 1,
FLAGS.bucket_width) = [100, 200, …, 3000]`, every bucket using batch size
`FLAGS.batch_size_per_GPU`; within a batch, feature matrices are padded with
`FLAGS.feature_pad_val` to the batch maximum time length, label sequences are
padded with `FLAGS.label_pad_val` to the batch maximum label length, and the
two per-sample length scalars are left unpadded. -/
theorem c3_bucket_and_batch :
    bucketBoundaries = [100, 200, 300, 400, 500, 600, 700, 800, 900, 1000,
      1100, 1200, 1300, 1400, 1500, 1600, 1700, 1800, 1900, 2000,
      2100, 2200, 2300, 2400, 2500, 2600, 2700, 2800, 2900, 3000]
    ∧ bucketBatchSizes bucketBoundaries = List.replicate 31 FLAGSbatchSizePerGPU
    ∧ (∀ (ds : List Sample) (b : List Sample), b ∈ bucketAndBatch ds bucketBoundaries →
        (∀ s1 ∈ b, ∀ s2 ∈ b, bucketId bucketBoundaries s1.sx = bucketId bucketBoundaries s2.sx)
        ∧ b.length ≤ FLAGSbatchSizePerGPU
        ∧ ∃ g, b = padBatch g)
    ∧ (∀ (g : List Sample), ∀ p ∈ padBatch g, ∃ s ∈ g,
        p.x = s.x ++ List.replicate (listMax (g.map (fun t => t.x.length)) - s.x.length)
            (List.replicate FLAGSnumFeatures FLAGSfeaturePadVal) ∧
        p.y = s.y ++ List.replicate (listMax (g.map (fun t => t.y.length)) - s.y.length)
            FLAGSlabelPadVal ∧
        p.sx = s.sx ∧ p.sy = s.sy ∧
        p.x.length = listMax (g.map (fun t => t.x.length)) ∧
        p.y.length = listMax (g.map (fun t => t.y.length))) := by
  refine ⟨by decide, by decide, ?_, padBatch_spec⟩
  intro ds b hb
  have hinv0 : StInv bucketBoundaries [] := by
    intro p hp
    simp at hp
  obtain ⟨g, hbg, hglen, kk, hbuckets⟩ := bbGo_mem bucketBoundaries ds [] hinv0 b hb
  refine ⟨?_, ?_, g, hbg⟩
  · intro s1 hs1 s2 hs2
    rw [hbg] at hs1 hs2
    obtain ⟨t1, ht1, -, -, hsx1, -, -, -⟩ := padBatch_spec g s1 hs1
    obtain ⟨t2, ht2, -, -, hsx2, -, -, -⟩ := padBatch_spec g s2 hs2
    rw [hsx1, hsx2, hbuckets t1 ht1, hbuckets t2 ht2]
  · rw [hbg]
    unfold padBatch
    simp only [List.length_map]
    exact hglen

set_option maxRecDepth 100000 in
/-- Witness for `c3_bucket_and_batch` at a concrete stream and batch. -/
theorem c3_witness :
    (([⟨[[(1 : ℚ)]], [2], 1, 1⟩] : List Sample)
        ∈ bucketAndBatch [⟨[[(1 : ℚ)]], [2], 1, 1⟩] bucketBoundaries)
    ∧ ((∀ s1 ∈ ([⟨[[(1 : ℚ)]], [2], 1, 1⟩] : List Sample),
          ∀ s2 ∈ ([⟨[[(1 : ℚ)]], [2], 1, 1⟩] : List Sample),
          bucketId bucketBoundaries s1.sx = bucketId bucketBoundaries s2.sx)
        ∧ ([⟨[[(1 : ℚ)]], [2], 1, 1⟩] : List Sample).length ≤ FLAGSbatchSizePerGPU
        ∧ ∃ g, ([⟨[[(1 : ℚ)]], [2], 1, 1⟩] : List Sample) = padBatch g)
    ∧ ((⟨[[(1 : ℚ)], List.replicate 123 (0 : ℚ)], [2], 1, 1⟩ : Sample)
        ∈ padBatch [⟨[[(1 : ℚ)]], [2], 1, 1⟩, ⟨[[(1 : ℚ)], [1]], [], 2, 0⟩])
    ∧ (∃ s ∈ ([⟨[[(1 : ℚ)]], [2], 1, 1⟩, ⟨[[(1 : ℚ)], [1]], [], 2, 0⟩] : List Sample),
        (⟨[[(1 : ℚ)], List.replicate 123 (0 : ℚ)], [2], 1, 1⟩ : Sample).x
          = s.x ++ List.replicate
              (listMax (([⟨[[(1 : ℚ)]], [2], 1, 1⟩, ⟨[[(1 : ℚ)], [1]], [], 2, 0⟩] : List Sample).map
                  (fun t => t.x.length)) - s.x.length)
              (List.replicate FLAGSnumFeatures FLAGSfeaturePadVal) ∧
        (⟨[[(1 : ℚ)], List.replicate 123 (0 : ℚ)], [2], 1, 1⟩ : Sample).y
          = s.y ++ List.replicate
              (listMax (([⟨[[(1 : ℚ)]], [2], 1, 1⟩, ⟨[[(1 : ℚ)], [1]], [], 2, 0⟩] : List Sample).map
                  (fun t => t.y.length)) - s.y.length)
              FLAGSlabelPadVal ∧
        (⟨[[(1 : ℚ)], List.replicate 123 (0 : ℚ)], [2], 1, 1⟩ : Sample).sx = s.sx ∧
        (⟨[[(1 : ℚ)], List.replicate 123 (0 : ℚ)], [2], 1, 1⟩ : Sample).sy = s.sy ∧
        (⟨[[(1 : ℚ)], List.replicate 123 (0 : ℚ)], [2], 1, 1⟩ : Sample).x.length
          = listMax (([⟨[[(1 : ℚ)]], [2], 1, 1⟩, ⟨[[(1 : ℚ)], [1]], [], 2, 0⟩] : List Sample).map
              (fun t => t.x.length)) ∧
        (⟨[[(1 : ℚ)], List.replicate 123 (0 : ℚ)], [2], 1, 1⟩ : Sample).y.length
          = listMax (([⟨[[(1 : ℚ)]], [2], 1, 1⟩, ⟨[[(1 : ℚ)], [1]], [], 2, 0⟩] : List Sample).map
              (fun t => t.y.length))) :=
  ⟨by decide,
   c3_bucket_and_batch.2.2.1 [⟨[[(1 : ℚ)]], [2], 1, 1⟩] [⟨[[(1 : ℚ)]], [2], 1, 1⟩] (by decide),
   by decide,
   c3_bucket_and_batch.2.2.2 [⟨[[(1 : ℚ)]], [2], 1, 1⟩, ⟨[[(1 : ℚ)], [1]], [], 2, 0⟩]
     ⟨[[(1 : ℚ)], List.replicate 123 (0 : ℚ)], [2], 1, 1⟩ (by decide)⟩

/-- **C9**: `n2c_map` is the exact inverse of `c2n_map`: looking a character's
code back up returns the character and vice versa; the codes are exactly
0..42 and `alphabet_size = 43`. -/
theorem c9_alphabet_maps_inverse :
    (∀ p ∈ c2nMap, n2cLookup p.2 = some p.1)
    ∧ (∀ q ∈ n2cMap, c2nLookup q.2 = some q.1)
    ∧ c2nMap.map Prod.snd = List.range 43
    ∧ n2cMap.map Prod.fst = List.range 43
    ∧ alphabetSize = 43 := by
  refine ⟨by decide, by decide, by decide, by decide, by decide⟩

/-- Witness for `c9_alphabet_maps_inverse` at the digraph entry. -/
theorem c9_witness :
    ((("ch"), 13) ∈ c2nMap) ∧ n2cLookup 13 = some ("ch") :=
  ⟨by decide, c9_alphabet_maps_inverse.1 ((("ch"), 13)) (by decide)⟩

theorem shuffleGo_perm {α : Type} [DecidableEq α] :
    ∀ (fuel seed : ℕ) (l : List α), l.length ≤ fuel → (shuffleGo fuel seed l).Perm l := by
  intro fuel
  induction fuel with
  | zero =>
      intro seed l h
      have hl : l = [] := List.eq_nil_of_length_eq_zero (Nat.le_zero.mp h)
      rw [hl]
      simp [shuffleGo]
  | succ k ih =>
      intro seed l h
      cases l with
      | nil => simp [shuffleGo]
      | cons a as =>
          simp only [shuffleGo]
          have hpicked : (a :: as).getD (seed % (a :: as).length) a ∈ a :: as :=
            getD_mem _ _ _ (Nat.mod_lt _ (by simp))
          have hperm1 := List.perm_cons_erase hpicked
          have hlen : ((a :: as).erase ((a :: as).getD (seed % (a :: as).length) a)).length ≤ k := by
            rw [List.length_erase_of_mem hpicked]
            simp at h ⊢
            omega
          have hrec := ih (lcgNext seed) _ hlen
          exact (hrec.cons _).trans hperm1.symm

theorem shuffleSeeded_perm {α : Type} [DecidableEq α] (seed : ℕ) (l : List α) :
    (shuffleSeeded seed l).Perm l :=
  shuffleGo_perm l.length seed l le_rfl

theorem sizeLL_append {α : Type} (a b : List (List α)) :
    sizeLL (a ++ b) = sizeLL a + sizeLL b := by
  simp [sizeLL]

theorem ilGo_perm {α : Type} (block : ℕ) (hb : 1 ≤ block) :
    ∀ (fuel : ℕ) (act pending : List (List α)),
      sizeLL act + sizeLL pending + pending.length ≤ fuel →
      (ilGo block fuel act pending).Perm (act.flatten ++ pending.flatten) := by
  intro fuel
  induction fuel with
  | zero =>
      intro act pending h
      have hpend : pending = [] := by
        cases pending with
        | nil => rfl
        | cons p ps => simp [sizeLL] at h
      have hact : act = [] := by
        cases act with
        | nil => rfl
        | cons q act1 => rw [hpend] at h; simp [sizeLL] at h
      rw [hact, hpend]
      simp [ilGo]
  | succ k ih =>
      intro act pending h
      cases act with
      | nil =>
          cases pending with
          | nil => simp [ilGo]
          | cons p ps =>
              simp only [ilGo]
              have hle : sizeLL [p] + sizeLL ps + ps.length ≤ k := by
                simp [sizeLL] at h ⊢
                omega
              have hrec := ih [p] ps hle
              simpa using hrec
      | cons q act1 =>
          simp only [ilGo]
          by_cases hq : (q.drop block).isEmpty
          · rw [if_pos hq]
            have hqdrop : q.drop block = [] := List.isEmpty_iff.mp hq
            have hqlen : q.length ≤ block := by
              have := congrArg List.length hqdrop
              simp at this
              omega
            have hqtake : q.take block = q := List.take_of_length_le hqlen
            cases pending with
            | nil =>
                have hle : sizeLL act1 + sizeLL ([] : List (List α)) + 0 ≤ k := by
                  simp [sizeLL] at h ⊢
                  omega
                have hrec := ih act1 [] hle
                rw [hqtake]
                simp only [List.flatten_nil, List.append_nil] at hrec ⊢
                simp only [List.flatten_cons, List.append_assoc]
                exact hrec.append_left q
            | cons p ps =>
                have hle : sizeLL (act1 ++ [p]) + sizeLL ps + ps.length ≤ k := by
                  rw [sizeLL_append]
                  simp [sizeLL] at h ⊢
                  omega
                have hrec := ih (act1 ++ [p]) ps hle
                rw [hqtake]
                simp only [List.flatten_append, List.flatten_cons, List.flatten_nil,
                  List.append_nil, List.append_assoc] at hrec ⊢
                exact hrec.append_left q
          · rw [if_neg hq]
            have hqdrop : q.drop block ≠ [] := by
              intro hcon
              rw [List.isEmpty_iff] at hq
              exact hq hcon
            have hqlen : block < q.length := by
              by_contra hcon
              push_neg at hcon
              exact hqdrop (List.drop_eq_nil_of_le hcon)
            have hle : sizeLL (act1 ++ [q.drop block]) + sizeLL pending + pending.length ≤ k := by
              rw [sizeLL_append]
              simp [sizeLL] at h ⊢
              omega
            have hrec := ih (act1 ++ [q.drop block]) pending hle
            have hsplit : q.take block ++ q.drop block = q := List.take_append_drop block q
            refine (hrec.append_left (q.take block)).trans ?_
            simp only [List.flatten_append, List.flatten_cons, List.flatten_nil,
              List.append_nil, List.append_assoc]
            have hcore : (act1.flatten ++ (q.drop block ++ pending.flatten)).Perm
                (q.drop block ++ (act1.flatten ++ pending.flatten)) := by
              rw [← List.append_assoc, ← List.append_assoc]
              exact List.perm_append_comm.append_right pending.flatten
            refine (hcore.append_left (q.take block)).trans ?_
            rw [← List.append_assoc, hsplit]

theorem interleaveF_perm {α : Type} (cycle block : ℕ) (hb : 1 ≤ block) (ls : List (List α)) :
    (interleaveF cycle block ls).Perm ls.flatten := by
  unfold interleaveF
  have hsplit : ls.take cycle ++ ls.drop cycle = ls := List.take_append_drop cycle ls
  have hfuel : sizeLL (ls.take cycle) + sizeLL (ls.drop cycle) + (ls.drop cycle).length
      ≤ sizeLL ls + ls.length + 1 := by
    have h1 : sizeLL (ls.take cycle) + sizeLL (ls.drop cycle) = sizeLL ls := by
      rw [← sizeLL_append, hsplit]
    have h2 : (ls.drop cycle).length ≤ ls.length := by simp
    omega
  have hmain := ilGo_perm block hb _ (ls.take cycle) (ls.drop cycle) hfuel
  refine hmain.trans ?_
  rw [← List.flatten_append, hsplit]

/-- **C4**: `load_datasets` builds the training dataset by applying the
stages in exactly this order: record parsing (`_parse_proto`) mapped inside
file interleaving, then attachment of the per-sample length scalars
(`_read_tfrecords`), then bucket-batching, then — only when `data_aug` —
time masking followed by frequency masking, then shuffling, then
prefetching. -/
theorem c4_pipeline_order :
    (∀ (files : List TFFile) (sh : Bool) (seed bl cl : ℕ),
      readTfrecords files sh seed bl cl
        = (interleaveF cl bl
            ((if sh then shuffleSeeded seed files else files).map
              (fun f => f.records.map parseProto))).map attachSizes)
    ∧ (∀ (bwT bwF : ℤ) (dT dF : ℕ → ℕ → ℕ) (ds : List Sample),
        trainPipeline true bwT bwF dT dF ds
          = ((maskStage (specAugInit 0 bwT) dT (bucketAndBatch ds bucketBoundaries)).bind
              (fun t => maskStage (specAugInit 1 bwF) dF t)).map
              (fun r => prefetchStage (shuffleStage FLAGSbufferSize r)))
    ∧ (∀ (entries : List DirEntry) (bwT bwF : ℤ) (dT dF : ℕ → ℕ → ℕ),
        (loadDatasets entries true bwT bwF dT dF).1
          = (walkFolders entries none none).1.map
              (fun ds => trainPipeline true bwT bwF dT dF ds)) :=
  ⟨fun _ _ _ _ _ => rfl, fun _ _ _ _ _ => rfl, fun _ _ _ _ _ => rfl⟩

/-- **C7**: spectral masking is optional and applied only to the training
dataset.  The test dataset is always bucket-batched and prefetched with no
masking, and is unaffected by the `data_aug` flag; when `data_aug` is false
the training dataset is bucket-batched, shuffled and prefetched with no
masking; the non-masking stages are the same in both cases. -/
theorem c7_mask_optional_train_only :
    (∀ (entries : List DirEntry) (dataAug : Bool) (bwT bwF : ℤ) (dT dF : ℕ → ℕ → ℕ),
      (loadDatasets entries dataAug bwT bwF dT dF).2
        = (walkFolders entries none none).2.map
            (fun ds => prefetchStage (bucketAndBatch ds bucketBoundaries)))
    ∧ (∀ (entries : List DirEntry) (bwT bwF bwT2 bwF2 : ℤ) (dT dF dT2 dF2 : ℕ → ℕ → ℕ),
        (loadDatasets entries true bwT bwF dT dF).2
          = (loadDatasets entries false bwT2 bwF2 dT2 dF2).2)
    ∧ (∀ (bwT bwF : ℤ) (dT dF : ℕ → ℕ → ℕ) (ds : List Sample),
        trainPipeline false bwT bwF dT dF ds
          = .ok (prefetchStage (shuffleStage FLAGSbufferSize
              (bucketAndBatch ds bucketBoundaries)))) :=
  ⟨fun _ _ _ _ _ _ => rfl, fun _ _ _ _ _ _ _ _ _ => rfl, fun _ _ _ _ _ => rfl⟩

/-- **C5**: folder name selects the split.  `.tfrecord` files in a `train`
folder become the training dataset, files in a `test` folder the test
dataset; when `.tfrecord` files sit in a folder whose name is the empty
string, the joined data is shuffled once with the fixed seed
`FLAGS.shuffle_seed` and split into the first `FLAGS.num_train_data`
elements (train) and the remainder (test), ignoring the remaining walk
entries (the `break`); folders with any other name are skipped. -/
theorem c5_folder_dispatch :
    (∀ (e : DirEntry) (rest : List DirEntry) (tr te : Option (List Sample)),
      folderNameOf e.path ≠ ("") → folderNameOf e.path ≠ ("test") →
      folderNameOf e.path ≠ ("train") →
      walkFolders (e :: rest) tr te = walkFolders rest tr te)
    ∧ (∀ (e : DirEntry) (rest : List DirEntry) (tr te : Option (List Sample)),
      folderNameOf e.path = ("test") →
      walkFolders (e :: rest) tr te
        = walkFolders rest tr
            (some (readTfrecords (e.files.filter (fun f => hasTfrecord f.name))
              false 0 FLAGSnumTestData 8)))
    ∧ (∀ (e : DirEntry) (rest : List DirEntry) (tr te : Option (List Sample)),
      folderNameOf e.path = ("train") →
      walkFolders (e :: rest) tr te
        = walkFolders rest
            (some (readTfrecords (e.files.filter (fun f => hasTfrecord f.name))
              false 0 FLAGSnumTrainData 8)) te)
    ∧ (∀ (e : DirEntry) (rest : List DirEntry) (tr te : Option (List Sample)),
      folderNameOf e.path = ("") →
      e.files.filter (fun f => hasTfrecord f.name) ≠ [] →
      walkFolders (e :: rest) tr te
        = (some (dsFromJoined (e.files.filter (fun f => hasTfrecord f.name))).1,
           some (dsFromJoined (e.files.filter (fun f => hasTfrecord f.name))).2))
    ∧ (∀ (files : List TFFile),
        (dsFromJoined files).1
            = (shuffleSeeded FLAGSshuffleSeed
                (readTfrecords files true FLAGSshuffleSeed
                  (FLAGSnumTrainData + FLAGSnumTestData) 1)).take FLAGSnumTrainData
        ∧ (dsFromJoined files).2
            = (shuffleSeeded FLAGSshuffleSeed
                (readTfrecords files true FLAGSshuffleSeed
                  (FLAGSnumTrainData + FLAGSnumTestData) 1)).drop FLAGSnumTrainData
        ∧ ((dsFromJoined files).1 ++ (dsFromJoined files).2).Perm
            ((files.map (fun f => f.records.map parseProto)).flatten.map attachSizes)) := by
  refine ⟨?_, ?_, ?_, ?_, ?_⟩
  · intro e rest tr te h1 h2 h3
    unfold walkFolders
    rw [if_neg (by intro hc; exact h1 hc.1), if_neg h2, if_neg h3]
    cases rest <;> rfl
  · intro e rest tr te h1
    unfold walkFolders
    rw [if_neg ?hne, if_pos h1]
    case hne =>
      intro hc
      rw [h1] at hc
      exact absurd hc.1 (by decide)
    cases rest <;> rfl
  · intro e rest tr te h1
    unfold walkFolders
    rw [if_neg ?hne2, if_neg ?hne3, if_pos h1]
    case hne2 =>
      intro hc
      rw [h1] at hc
      exact absurd hc.1 (by decide)
    case hne3 =>
      intro hc
      rw [h1] at hc
      exact absurd hc (by decide)
    cases rest <;> rfl
  · intro e rest tr te h1 h2
    unfold walkFolders
    rw [if_pos ⟨h1, h2⟩]
  · intro files
    refine ⟨rfl, rfl, ?_⟩
    have hsplit : (dsFromJoined files).1 ++ (dsFromJoined files).2
        = shuffleSeeded FLAGSshuffleSeed
            (readTfrecords files true FLAGSshuffleSeed
              (FLAGSnumTrainData + FLAGSnumTestData) 1) :=
      List.take_append_drop _ _
    rw [hsplit]
    have h2 := shuffleSeeded_perm FLAGSshuffleSeed
        (readTfrecords files true FLAGSshuffleSeed
          (FLAGSnumTrainData + FLAGSnumTestData) 1)
    refine h2.trans ?_
    have hread : readTfrecords files true FLAGSshuffleSeed
        (FLAGSnumTrainData + FLAGSnumTestData) 1
        = (interleaveF 1 (FLAGSnumTrainData + FLAGSnumTestData)
            ((shuffleSeeded FLAGSshuffleSeed files).map
              (fun f => f.records.map parseProto))).map attachSizes := rfl
    rw [hread]
    have hil := interleaveF_perm 1 (FLAGSnumTrainData + FLAGSnumTestData)
        (by decide)
        ((shuffleSeeded FLAGSshuffleSeed files).map (fun f => f.records.map parseProto))
    refine (hil.map attachSizes).trans ?_
    have hfiles := (shuffleSeeded_perm FLAGSshuffleSeed files).map
        (fun f => f.records.map parseProto)
    exact (hfiles.flatten).map attachSizes

/-- Witness for `c5_folder_dispatch` at concrete directory entries. -/
theorem c5_witness :
    (walkFolders [⟨("data/other"), []⟩] none none = walkFolders [] none none)
    ∧ (walkFolders [⟨("data/test"), [⟨("a.tfrecord"), [⟨[[1]], [0]⟩]⟩]⟩] none none
        = walkFolders [] none
            (some (readTfrecords (([⟨("a.tfrecord"), [⟨[[1]], [0]⟩]⟩] : List TFFile).filter
                (fun f => hasTfrecord f.name)) false 0 FLAGSnumTestData 8)))
    ∧ (walkFolders [⟨("data/train"), [⟨("b.tfrecord"), [⟨[[2]], [1]⟩]⟩]⟩] none none
        = walkFolders []
            (some (readTfrecords (([⟨("b.tfrecord"), [⟨[[2]], [1]⟩]⟩] : List TFFile).filter
                (fun f => hasTfrecord f.name)) false 0 FLAGSnumTrainData 8)) none)
    ∧ (walkFolders [⟨("data/"), [⟨("c.tfrecord"), [⟨[[3]], [2]⟩]⟩]⟩] none none
        = (some (dsFromJoined (([⟨("c.tfrecord"), [⟨[[3]], [2]⟩]⟩] : List TFFile).filter
              (fun f => hasTfrecord f.name))).1,
           some (dsFromJoined (([⟨("c.tfrecord"), [⟨[[3]], [2]⟩]⟩] : List TFFile).filter
              (fun f => hasTfrecord f.name))).2)) :=
  ⟨c5_folder_dispatch.1 ⟨("data/other"), []⟩ [] none none (by decide) (by decide) (by decide),
   c5_folder_dispatch.2.1 ⟨("data/test"), [⟨("a.tfrecord"), [⟨[[1]], [0]⟩]⟩]⟩ [] none none
     (by decide),
   c5_folder_dispatch.2.2.1 ⟨("data/train"), [⟨("b.tfrecord"), [⟨[[2]], [1]⟩]⟩]⟩ [] none none
     (by decide),
   c5_folder_dispatch.2.2.2.1 ⟨("data/"), [⟨("c.tfrecord"), [⟨[[3]], [2]⟩]⟩]⟩ [] none none
     (by decide) (by decide)⟩

/-- **C6**: training uses teacher forcing.  `train_step` runs the encoder on
`input_seq`, initializes the decoder state list as `[encoder final state,
None, None]`, feeds the ground-truth `target_seq_in` (not the decoder's own
predictions) as the decoder input, and computes the loss between the decoder
logits and `target_seq_out`; moreover the decoder's first GRU layer consumes
exactly `states_in[0]`, the slot holding the encoder state. -/
theorem c6_teacher_forcing :
    (∀ (I E σ V T : Type) (encoder : EncoderLM I E σ) (decoder : DecoderLM I E σ V)
       (lossF accF : T → V → ℚ) (inputSeq targetSeqIn : I) (targetSeqOut : T),
      trainStep encoder decoder lossF accF inputSeq targetSeqIn targetSeqOut
        = (lossF targetSeqOut
            (decoder.call targetSeqIn [some (encoder.call inputSeq).2, none, none]).1,
           accF targetSeqOut
            (decoder.call targetSeqIn [some (encoder.call inputSeq).2, none, none]).1))
    ∧ (∀ (I E σ V : Type) (emb : I → E) (g0 : E → Option σ → E × σ)
        (dense : E → V) (inp : I) (statesIn : List (Option σ)),
      (DecoderLM.mk emb [g0] dense).call inp statesIn
        = (dense (g0 (g0 (emb inp) (statesIn.getD 0 none)).1 (statesIn.getLastD none)).1,
           [(g0 (emb inp) (statesIn.getD 0 none)).2,
            (g0 (g0 (emb inp) (statesIn.getD 0 none)).1 (statesIn.getLastD none)).2])) :=
  ⟨fun _ _ _ _ _ _ _ _ _ _ _ _ => rfl, fun _ _ _ _ _ _ _ _ _ => rfl⟩

/-- **C10**: `test_step` short-circuits to the constant accuracy `0.5`
whenever `input_seq.shape[1] < min_len`, independently of the encoder and
decoder (they are not invoked); otherwise it returns the accuracy of the
greedy decode that starts from a batch of `<sos>` tokens, and the decoding
loop stops as soon as the last predicted class of the first sample equals
`<eos>` or the produced output reaches `max_length`. -/
theorem c10_test_step :
    (∀ (E σ E2 σ2 : Type) (enc : EncoderLM (List (List ℤ)) E σ)
       (dec : DecoderLM (List (List ℤ)) E σ (List (List (List ℚ))))
       (enc2 : EncoderLM (List (List ℤ)) E2 σ2)
       (dec2 : DecoderLM (List (List ℤ)) E2 σ2 (List (List (List ℚ))))
       (inputSeq targetSeqOut : List (List ℤ)) (minLen : ℕ) (sosTok eosTok : ℤ)
       (maxLength : ℕ) (padVal : ℤ),
      (inputSeq.headD []).length < minLen →
      testStep enc dec inputSeq targetSeqOut minLen sosTok eosTok maxLength padVal = 1 / 2
        ∧ testStep enc dec inputSeq targetSeqOut minLen sosTok eosTok maxLength padVal
            = testStep enc2 dec2 inputSeq targetSeqOut minLen sosTok eosTok maxLength padVal)
    ∧ (∀ (E σ : Type) (enc : EncoderLM (List (List ℤ)) E σ)
         (dec : DecoderLM (List (List ℤ)) E σ (List (List (List ℚ))))
         (inputSeq targetSeqOut : List (List ℤ)) (minLen : ℕ) (sosTok eosTok : ℤ)
         (maxLength : ℕ) (padVal : ℤ),
        ¬ (inputSeq.headD []).length < minLen →
        testStep enc dec inputSeq targetSeqOut minLen sosTok eosTok maxLength padVal
          = accuracyFunc targetSeqOut
              (testLoop dec eosTok maxLength (maxLength + 1)
                (List.replicate inputSeq.length [sosTok])
                [some (enc.call inputSeq).2, none, none] none) padVal true)
    ∧ (∀ (E σ : Type) (dec : DecoderLM (List (List ℤ)) E σ (List (List (List ℚ))))
         (eosTok : ℤ) (maxLength fuel : ℕ) (deInputs : List (List ℤ))
         (deStates : List (Option σ)),
        ((((dec.call deInputs deStates).1.map (fun row => row.map argmaxIdx)).headD
          []).getLastD 0 = eosTok →
        testLoop dec eosTok maxLength (fuel + 1) deInputs deStates none
          = (dec.call deInputs deStates).1))
    ∧ (∀ (E σ : Type) (dec : DecoderLM (List (List ℤ)) E σ (List (List (List ℚ))))
         (eosTok : ℤ) (maxLength fuel : ℕ) (deInputs : List (List ℤ))
         (deStates : List (Option σ)),
        maxLength ≤ (((dec.call deInputs deStates).1.headD []).length) →
        testLoop dec eosTok maxLength (fuel + 1) deInputs deStates none
          = (dec.call deInputs deStates).1) := by
  refine ⟨?_, ?_, ?_, ?_⟩
  · intro E σ E2 σ2 enc dec enc2 dec2 inputSeq targetSeqOut minLen sosTok eosTok maxLength padVal h
    unfold testStep
    rw [if_pos h, if_pos h]
    exact ⟨rfl, rfl⟩
  · intro E σ enc dec inputSeq targetSeqOut minLen sosTok eosTok maxLength padVal h
    unfold testStep
    rw [if_neg h]
  · intro E σ dec eosTok maxLength fuel deInputs deStates h
    unfold testLoop
    simp only [] at *
    rw [if_pos (Or.inl h)]
  · intro E σ dec eosTok maxLength fuel deInputs deStates h
    unfold testLoop
    simp only [] at *
    rw [if_pos (Or.inr h)]

/-- Witness for `c10_test_step` at concrete models and inputs. -/
theorem c10_witness :
    ((([[(5 : ℤ)]] : List (List ℤ)).headD []).length < 2)
    ∧ testStep encW decW [[(5 : ℤ)]] [[(0 : ℤ)]] 2 1 0 5 (-1) = 1 / 2
    ∧ ((((decW.call [[(1 : ℤ)]] [none]).1.map (fun row => row.map argmaxIdx)).headD
        []).getLastD 0 = (0 : ℤ))
    ∧ testLoop decW 0 5 5 [[(1 : ℤ)]] [none] none = (decW.call [[(1 : ℤ)]] [none]).1 :=
  ⟨by decide,
   (c10_test_step.1 ℚ ℚ ℚ ℚ encW decW encW decW [[(5 : ℤ)]] [[(0 : ℤ)]] 2 1 0 5 (-1)
     (by decide)).1,
   by decide,
   c10_test_step.2.2.1 ℚ ℚ decW 0 5 4 [[(1 : ℤ)]] [none] (by decide)⟩

end SpeechPipeline
